import Mathlib

set_option maxHeartbeats 1000000

/- Verification development for the speech-to-text orchestration engine
   (tauri-svelte5-app/src-tauri: cli.rs, lib.rs, models.rs, error.rs),
   shallowly embedded in Lean.  Numeric progress values (f64 in the source)
   are modelled as exact rationals: every claim under study is about the
   symbolic value of the computed expressions, whose inputs here are small
   integers, so the rational model coincides with the source formulas. -/

/-- Processing stages (models.rs, enum ProcessingStage). -/
inductive ProcStage
  | initializing
  | loadingModel
  | preprocessing
  | transcribing
  | postprocessing
  | finalizing
  | saving
deriving DecidableEq

/-- Error taxonomy (error.rs, enum AppError); the payload is the fully
formatted message string. -/
inductive AppErr
  | fileNotFound (msg : String)
  | unsupportedFormat (msg : String)
  | processingError (msg : String)
  | cliError (msg : String)
  | configError (msg : String)
  | systemError (msg : String)
  | ioError (msg : String)
  | serializationError (msg : String)
deriving DecidableEq

/-- Progress event (models.rs, struct ProcessingProgress).  The wall-clock
`timestamp` and the diagnostic `message` string are not modelled: no claim
refers to them, and the message text is pure formatting of already-modelled
numbers. -/
structure ProgressEvent where
  stage : ProcStage
  progress : ℚ
  currentFile : Option String
  jobId : Option String
  fileIndex : Option Nat
  totalFiles : Option Nat
  canCancel : Bool
deriving DecidableEq

/-- Transcription result (models.rs, struct TranscriptionResult); only the
fields the claims consult are kept.  The id, metadata and timing fields are
built from fresh ids, settings and clocks and never inspected by a claim. -/
structure TranscriptionResultM where
  transcribedText : String
  outputPath : String
deriving DecidableEq

/- ## Character-level helpers for the line recognizers (cli.rs 1146-1293).
   Each regex of parse_and_emit_progress consists of literal characters and
   greedy character-class runs each followed by a literal outside the class,
   so maximal munch reproduces the regex engine's leftmost match exactly. -/

/-- Decimal value of an ASCII digit character. -/
def digitVal (c : Char) : Nat := c.toNat - 48

/-- Longest run of digit characters at the head of the list (greedy regex
class run), together with the remaining characters. -/
def takeDigits : List Char → List Char × List Char
  | [] => ([], [])
  | c :: cs =>
    if c.isDigit then
      let p := takeDigits cs
      (c :: p.1, p.2)
    else ([], c :: cs)

/-- Numeric value of a digit run (how str::parse reads it; the values in the
claims are small, so the f64 round-trip in the source is exact). -/
def digitsVal (ds : List Char) : Nat := ds.foldl (fun n c => 10 * n + digitVal c) 0

/-- Drop the longest whitespace run at the head of the list. -/
def dropWs : List Char → List Char
  | [] => []
  | c :: cs => if c.isWhitespace then dropWs cs else c :: cs

/-- Does the list start with the given pattern of characters? -/
def beginsWith : List Char → List Char → Bool
  | [], _ => true
  | _ :: _, [] => false
  | p :: ps, c :: cs => p == c && beginsWith ps cs

/-- Does the pattern occur as a contiguous substring (Rust str::contains)? -/
def hasSub (pat : List Char) : List Char → Bool
  | [] => pat.isEmpty
  | c :: cs => beginsWith pat (c :: cs) || hasSub pat cs

/-- Match recognizer 1 at the head of the list, the Whisper segment marker
regex of cli.rs line 1167 with its six captures:
open bracket, dd, colon, dd, dot, ddd, the arrow, dd, colon, dd, dot, ddd,
close bracket. -/
def matchSegAt (l : List Char) : Option (Nat × Nat × Nat × Nat × Nat × Nat) :=
  match l with
  | '[' :: a1 :: a2 :: ':' :: b1 :: b2 :: '.' :: c1 :: c2 :: c3 ::
    ' ' :: '-' :: '-' :: '>' :: ' ' :: d1 :: d2 :: ':' :: e1 :: e2 :: '.' :: f1 :: f2 :: f3 :: ']' :: _ =>
    if a1.isDigit && a2.isDigit && b1.isDigit && b2.isDigit
       && c1.isDigit && c2.isDigit && c3.isDigit
       && d1.isDigit && d2.isDigit && e1.isDigit && e2.isDigit
       && f1.isDigit && f2.isDigit && f3.isDigit then
      some (10 * digitVal a1 + digitVal a2,
            10 * digitVal b1 + digitVal b2,
            100 * digitVal c1 + 10 * digitVal c2 + digitVal c3,
            10 * digitVal d1 + digitVal d2,
            10 * digitVal e1 + digitVal e2,
            100 * digitVal f1 + 10 * digitVal f2 + digitVal f3)
    else none
  | _ => none

/-- Leftmost match of recognizer 1 in the line (Regex::captures scans start
positions left to right). -/
def findSeg : List Char → Option (Nat × Nat × Nat × Nat × Nat × Nat)
  | [] => none
  | c :: cs =>
    match matchSegAt (c :: cs) with
    | some r => some r
    | none => findSeg cs

/-- Consume characters up to and including the next pipe character (the
greedy non-pipe class run followed by a literal pipe). -/
def skipToBar : List Char → Option (List Char)
  | [] => none
  | c :: cs => if c == '|' then some cs else skipToBar cs

/-- Match recognizer 2 at the head of the list, the tqdm progress-bar regex
of cli.rs line 1198: digits, percent sign, pipe, non-pipe run, pipe,
whitespace, digits, slash, digits, whitespace, open bracket; captures are
the percentage and the current/total counts. -/
def matchTqdmAt (l : List Char) : Option (Nat × Nat × Nat) :=
  let p := takeDigits l
  match p.1, p.2 with
  | [], _ => none
  | _ :: _, '%' :: '|' :: r2 =>
    match skipToBar r2 with
    | none => none
    | some r3 =>
      let q := takeDigits (dropWs r3)
      match q.1, q.2 with
      | [], _ => none
      | _ :: _, '/' :: r4 =>
        let w := takeDigits r4
        match w.1 with
        | [] => none
        | _ :: _ =>
          match dropWs w.2 with
          | '[' :: _ => some (digitsVal p.1, digitsVal q.1, digitsVal w.1)
          | _ => none
      | _ :: _, _ => none
  | _ :: _, _ => none

/-- Leftmost match of recognizer 2 in the line. -/
def findTqdm : List Char → Option (Nat × Nat × Nat)
  | [] => none
  | c :: cs =>
    match matchTqdmAt (c :: cs) with
    | some r => some r
    | none => findTqdm cs

/-- Parse the percentage capture of recognizer 3, digits with an optional
fractional part, returning its exact value and the rest of the line.  When
the dot is not followed by a digit the whole position fails (the regex can
neither apply the optional group nor match the percent sign at the dot). -/
def readPercentCapture (l : List Char) : Option (ℚ × List Char) :=
  let p := takeDigits l
  match p.1 with
  | [] => none
  | _ :: _ =>
    match p.2 with
    | '.' :: r2 =>
      let q := takeDigits r2
      match q.1 with
      | [] => none
      | _ :: _ =>
        some ((digitsVal p.1 : ℚ) + (digitsVal q.1 : ℚ) / ((10 : ℚ) ^ q.1.length), q.2)
    | r2 => some ((digitsVal p.1 : ℚ), r2)

/-- Match recognizer 3 at the head of the list, the CLI progress marker
regex of cli.rs line 1221: open bracket, digits, slash, digits, close
bracket, whitespace, open paren, percentage with optional fraction, percent
sign, close paren, whitespace, the literal word Processing with a colon. -/
def matchCliAt (l : List Char) : Option (Nat × Nat × ℚ) :=
  match l with
  | '[' :: r1 =>
    let p := takeDigits r1
    match p.1, p.2 with
    | _ :: _, '/' :: r2 =>
      let q := takeDigits r2
      match q.1, q.2 with
      | _ :: _, ']' :: r3 =>
        match dropWs r3 with
        | '(' :: r4 =>
          match readPercentCapture r4 with
          | some (pct, '%' :: ')' :: r5) =>
            if beginsWith "Processing:".toList (dropWs r5) then
              some (digitsVal p.1, digitsVal q.1, pct)
            else none
          | _ => none
        | _ => none
      | _, _ => none
    | _, _ => none
  | _ => none

/-- Leftmost match of recognizer 3 in the line. -/
def findCli : List Char → Option (Nat × Nat × ℚ)
  | [] => none
  | c :: cs =>
    match matchCliAt (c :: cs) with
    | some r => some r
    | none => findCli cs

/-- Match recognizer 4 at the head of the list: digits followed by a percent
sign (cli.rs line 1244). -/
def matchPctAt (l : List Char) : Option Nat :=
  let p := takeDigits l
  match p.1, p.2 with
  | _ :: _, '%' :: _ => some (digitsVal p.1)
  | _, _ => none

/-- Leftmost match of recognizer 4 in the line. -/
def findPct : List Char → Option Nat
  | [] => none
  | c :: cs =>
    match matchPctAt (c :: cs) with
    | some r => some r
    | none => findPct cs

/-- Output parser, fn parse_and_emit_progress (cli.rs 1146-1293): the
recognizers are tried in fixed priority order and the first match produces
the single emitted event; the returned option is the event handed to the
callback (the console and log-file echoes of the raw line are side effects
with no influence on the emitted event). -/
def parseAndEmitProgress (line filePath : String) : Option ProgressEvent :=
  match findSeg line.toList with
  | some (_, _, _, endMin, endSec, _) =>
    let currentTime : ℚ := (endMin : ℚ) * 60 + (endSec : ℚ)
    let estimatedProgress : ℚ := currentTime / 300 * 100
    let progress : ℚ := if estimatedProgress > 90 then 90 else estimatedProgress
    some { stage := .transcribing, progress := progress,
           currentFile := some filePath, jobId := none, fileIndex := none,
           totalFiles := none, canCancel := true }
  | none =>
    match findTqdm line.toList with
    | some (percent, _, _) =>
      some { stage := .transcribing, progress := (percent : ℚ),
             currentFile := some filePath, jobId := none, fileIndex := none,
             totalFiles := none, canCancel := true }
    | none =>
      match findCli line.toList with
      | some (_, _, percent) =>
        some { stage := .transcribing, progress := percent,
               currentFile := some filePath, jobId := none, fileIndex := none,
               totalFiles := none, canCancel := true }
      | none =>
        match findPct line.toList with
        | some percent =>
          some { stage := .transcribing, progress := (percent : ℚ),
                 currentFile := some filePath, jobId := none, fileIndex := none,
                 totalFiles := none, canCancel := true }
        | none =>
          if hasSub "Loading Whisper model".toList line.toList then
            some { stage := .initializing, progress := 10,
                   currentFile := some filePath, jobId := none, fileIndex := none,
                   totalFiles := none, canCancel := true }
          else if hasSub "Transcribing".toList line.toList
                  && !(hasSub "Loading".toList line.toList) then
            some { stage := .transcribing, progress := 25,
                   currentFile := some filePath, jobId := none, fileIndex := none,
                   totalFiles := none, canCancel := true }
          else none

/- ## Output Resolver (cli.rs, parse_cli_completion, lines 885-1097). -/

/-- A directory entry as the resolver sees it: file name, modification time
(metadata failures collapse to the epoch, i.e. 0), and the file's text when
read_to_string succeeds (none models a read failure). -/
structure FileEntry where
  name : String
  mtime : Nat
  content : Option String
deriving DecidableEq

/-- The filesystem surface the resolver probes: the CLI working directory
(the cache directory joined with SpeechToText), its output subdirectory and
the user's home directory.  none models a directory that does not exist or
whose listing fails; the source skips both. -/
structure WorkDirFS where
  workDir : Option (List FileEntry)
  outputDir : Option (List FileEntry)
  homeDir : Option (List FileEntry)
deriving DecidableEq

/-- The exact expected artifact name (cli.rs line 905). -/
def expectedName (base : String) : String := base ++ "_transcription.txt"

/-- Placeholder substituted when reading the located artifact fails
(cli.rs lines 950 and 1060). -/
def placeholderText : String := "Transcription completed but text could not be read"

/-- What read_to_string followed by unwrap_or_else yields for an entry. -/
def readTextOf (e : FileEntry) : String := e.content.getD placeholderText

/-- Does the name carry a txt extension (Rust ends_with)? -/
def endsWithTxt (name : String) : Bool := beginsWith "txt.".toList name.toList.reverse

/-- The candidate-name filter of the scan (cli.rs lines 995-1032): the
timestamp form, the exact form, the bare stem form, or any name containing
both the stem and the word transcription with a txt extension. -/
def matchesPattern (base name : String) : Bool :=
  (beginsWith (base ++ "_transcription_").toList name.toList && endsWithTxt name)
  || name == expectedName base
  || name == base ++ ".txt"
  || (hasSub base.toList name.toList && hasSub "transcription".toList name.toList
      && endsWithTxt name)

/-- The matching entries of one directory listing (cli.rs 992-1034). -/
def matchingFiles (base : String) (entries : List FileEntry) : List FileEntry :=
  entries.filter (fun e => matchesPattern base e.name)

/-- Stable insertion into a list sorted by decreasing modification time. -/
def insertDesc (e : FileEntry) : List FileEntry → List FileEntry
  | [] => [e]
  | f :: fs => if f.mtime ≤ e.mtime then e :: f :: fs else f :: insertDesc e fs

/-- Stable sort by decreasing modification time, mirroring the stable
sort_by with the reversed comparator (cli.rs lines 1037-1041). -/
def sortDesc : List FileEntry → List FileEntry
  | [] => []
  | e :: es => insertDesc e (sortDesc es)

/-- Most recently modified entry: head of the sorted list (cli.rs 1043). -/
def selectLatest (l : List FileEntry) : Option FileEntry := (sortDesc l).head?

/-- Scan the candidate directories in order, stopping at the first directory
that yields any matching file (cli.rs lines 969-1054). -/
def findInDirs (base : String) : List (Option (List FileEntry)) → Option FileEntry
  | [] => none
  | none :: rest => findInDirs base rest
  | some entries :: rest =>
    match selectLatest (matchingFiles base entries) with
    | some e => some e
    | none => findInDirs base rest

/-- The candidate directories in priority order (cli.rs lines 961-965). -/
def searchDirs (fs : WorkDirFS) : List (Option (List FileEntry)) :=
  [fs.workDir, fs.outputDir, fs.homeDir]

/-- Existence probe for the exact expected path inside the working
directory (cli.rs line 946). -/
def exactOutputFile (base : String) (fs : WorkDirFS) : Option FileEntry :=
  (fs.workDir.getD []).find? (fun e => e.name == expectedName base)

/-- Output Resolver, fn parse_cli_completion (cli.rs 885-1097): the exact
expected path first, then the prioritized directory scan.  The desktop
debug-log side channel is elided, and directory components of the returned
path are elided: outputPath is the chosen entry's file name. -/
def parseCliCompletion (base : String) (fs : WorkDirFS) : Except AppErr TranscriptionResultM :=
  match exactOutputFile base fs with
  | some e => .ok { transcribedText := readTextOf e, outputPath := expectedName base }
  | none =>
    match findInDirs base (searchDirs fs) with
    | some e => .ok { transcribedText := readTextOf e, outputPath := e.name }
    | none => .error (.cliError "Transcription output file not found")

/- ## Job Orchestrator monitoring race (cli.rs process_with_sidecar lines
   429-583 and process_with_dev_cli lines 616-736; the two functions share
   this logic verbatim up to the label inside their error messages). -/

inductive CliMode
  | sidecar
  | dev
deriving DecidableEq

def processLabel : CliMode → String
  | .sidecar => "Sidecar"
  | .dev => "CLI"

/-- Message of the timeout CliError (cli.rs 476 and 493, resp. 663 and 680). -/
def timeoutMsg (m : CliMode) : String := processLabel m ++ " process timed out"

/-- Message of the CliError produced when the wait arm observed the token
already cancelled, killed the child and returned an Interrupted io error
whose display form is Cancelled (cli.rs 465-467 with 480, resp. 652-654
with 667). -/
def waitFailCancelledMsg (m : CliMode) : String :=
  processLabel m ++ " process failed: Cancelled"

/-- Debug formatting of ExitStatus::code(), an Option of the exit code. -/
def exitCodeDebug : Option Int → String
  | some c => "Some(" ++ toString c ++ ")"
  | none => "None"

/-- Message of the non-zero-exit CliError (cli.rs 571 and 580, resp. 724
and 733). -/
def exitFailMsg (code : Option Int) : String :=
  "CLI execution failed with exit code: " ++ exitCodeDebug code

/-- Final progress event emitted when the process exited successfully
(cli.rs 506-516, resp. 693-703). -/
def savingEvent (filePath : String) : ProgressEvent :=
  { stage := .saving, progress := 100, currentFile := some filePath,
    jobId := none, fileIndex := none, totalFiles := none, canCancel := false }

/-- CLI integration manager configuration (cli.rs, struct CliManager). -/
structure CliManagerM where
  useSidecar : Bool
  timeoutSecs : Nat
deriving DecidableEq

/-- CliManager::default (cli.rs 29-36): sidecar mode, one-hour timeout. -/
def cliManagerDefault : CliManagerM := { useSidecar := true, timeoutSecs := 3600 }

/-- Which of the racing futures of the monitoring select resolves first; the
asynchronous scheduler's choice is an input of the model.  cancelledArm:
the token fires and its select arm wins while the child is still running.
preCancelledKill: the wait arm polls first with the token already fired,
kills the child and yields the Interrupted error.  timedOut: the configured
timeout elapses before exit.  exited: the child exits with the given
ExitStatus code (none models death by signal; success means code 0). -/
inductive WaitOutcome
  | cancelledArm
  | preCancelledKill
  | timedOut
  | exited (code : Option Int)
deriving DecidableEq

/-- Decidable equality for results, so witnesses can be checked by
evaluation. -/
instance instDecEqExcept {ε α : Type} [DecidableEq ε] [DecidableEq α] :
    DecidableEq (Except ε α) := fun x y =>
  match x, y with
  | .ok a, .ok b =>
    if h : a = b then .isTrue (by rw [h])
    else .isFalse (by intro hh; cases hh; exact h rfl)
  | .error a, .error b =>
    if h : a = b then .isTrue (by rw [h])
    else .isFalse (by intro hh; cases hh; exact h rfl)
  | .ok _, .error _ => .isFalse (by intro hh; cases hh)
  | .error _, .ok _ => .isFalse (by intro hh; cases hh)

/-- What one monitored run produces: the progress events emitted after the
wait resolved, the returned result, and whether child.kill() was awaited
before control returned. -/
structure MonitorOutcome where
  events : List ProgressEvent
  result : Except AppErr TranscriptionResultM
  childKilled : Bool
deriving DecidableEq

/-- The completion race and its aftermath for a run with a progress callback
and a cancellation token (cli.rs 461-572, resp. 648-725).  Dropping the
pending wait future does not kill the child (kill_on_drop is never set), so
childKilled is true exactly where the source awaits child.kill().  The
stderr re-run and the desktop log files of the failure path are side
effects without influence on the result. -/
def processMonitor (mode : CliMode) (base filePath : String) (fs : WorkDirFS)
    (o : WaitOutcome) : MonitorOutcome :=
  match o with
  | .cancelledArm =>
    { events := [], result := .error (.processingError "Processing was cancelled"),
      childKilled := false }
  | .preCancelledKill =>
    { events := [], result := .error (.cliError (waitFailCancelledMsg mode)),
      childKilled := true }
  | .timedOut =>
    { events := [], result := .error (.cliError (timeoutMsg mode)), childKilled := false }
  | .exited code =>
    if code = some 0 then
      { events := [savingEvent filePath], result := parseCliCompletion base fs,
        childKilled := false }
    else
      { events := [], result := .error (.cliError (exitFailMsg code)), childKilled := false }

/- ## Batch Coordinator (cli.rs, process_batch, lines 739-777). -/

/-- The body of the batch loop: a successful per-file result is pushed, a
per-file error is printed to stderr and skipped (cli.rs 766-773).  The
per-file call is abstracted as procFile; the batch-progress callback
emission (750-763) is a sink side effect with no influence on the result. -/
def processBatchLoop (procFile : String → Except AppErr TranscriptionResultM) :
    List String → List TranscriptionResultM → List TranscriptionResultM
  | [], results => results
  | f :: fs, results =>
    match procFile f with
    | .ok r => processBatchLoop procFile fs (results ++ [r])
    | .error _ => processBatchLoop procFile fs results

/-- fn process_batch: always Ok carrying the accumulated successes. -/
def processBatch (procFile : String → Except AppErr TranscriptionResultM)
    (filePaths : List String) : Except AppErr (List TranscriptionResultM) :=
  .ok (processBatchLoop procFile filePaths [])

/- ## Job Registry (lib.rs, BatchProcessingManager, lines 15-78).  The three
   HashMaps are modelled as association lists carrying explicit HashMap
   semantics, so key uniqueness is a provable invariant rather than a typing
   assumption. -/

/-- One per-job cancellation token; fired is irreversible. -/
structure TokenM where
  fired : Bool
deriving DecidableEq

/-- One background task handle; aborted by remove_job. -/
structure HandleM where
  aborted : Bool
deriving DecidableEq

/-- The per-job bookkeeping fields of ProcessingJob that the registry
operations touch. -/
structure JobM where
  id : String
  progress : ℚ
  stage : ProcStage
  isCancelled : Bool
deriving DecidableEq

/-- HashMap::insert on an association list: replace the entry carrying this
key when present, otherwise append. -/
def alInsert (k : String) (v : α) : List (String × α) → List (String × α)
  | [] => [(k, v)]
  | p :: rest => if p.1 = k then (k, v) :: rest else p :: alInsert k v rest

/-- HashMap::get. -/
def alGet (k : String) : List (String × α) → Option α
  | [] => none
  | p :: rest => if p.1 = k then some p.2 else alGet k rest

/-- HashMap::get_mut followed by a field update (no-op when absent). -/
def alModify (k : String) (f : α → α) : List (String × α) → List (String × α)
  | [] => []
  | p :: rest => if p.1 = k then (p.1, f p.2) :: rest else p :: alModify k f rest

/-- HashMap::remove. -/
def alRemove (k : String) : List (String × α) → List (String × α)
  | [] => []
  | p :: rest => if p.1 = k then rest else p :: alRemove k rest

def alKeys (m : List (String × α)) : List String := m.map Prod.fst

/-- struct BatchProcessingManager. -/
structure RegistryM where
  activeJobs : List (String × JobM)
  jobHandles : List (String × HandleM)
  cancellationTokens : List (String × TokenM)
deriving DecidableEq

/-- BatchProcessingManager::new. -/
def newRegistry : RegistryM :=
  { activeJobs := [], jobHandles := [], cancellationTokens := [] }

/-- add_job (lib.rs 30-32). -/
def addJob (r : RegistryM) (job : JobM) : RegistryM :=
  { r with activeJobs := alInsert job.id job r.activeJobs }

/-- get_job (lib.rs 34-36). -/
def getJob (r : RegistryM) (jobId : String) : Option JobM := alGet jobId r.activeJobs

/-- update_job_progress (lib.rs 38-43). -/
def updateJobProgress (r : RegistryM) (jobId : String) (p : ProgressEvent) : RegistryM :=
  let f := fun j => { j with progress := p.progress, stage := p.stage }
  { r with activeJobs := alModify jobId f r.activeJobs }

/-- remove_job (lib.rs 45-53): drop the job, abort and drop the handle, fire
and drop the token. -/
def removeJob (r : RegistryM) (jobId : String) : RegistryM :=
  { activeJobs := alRemove jobId r.activeJobs,
    jobHandles := alRemove jobId r.jobHandles,
    cancellationTokens := alRemove jobId r.cancellationTokens }

/-- cancel_job (lib.rs 55-65): mark the job cancelled when present; when a
token is registered, fire it and return true, otherwise return false. -/
def cancelJob (r : RegistryM) (jobId : String) : RegistryM × Bool :=
  let jobs := alModify jobId (fun j => { j with isCancelled := true }) r.activeJobs
  match alGet jobId r.cancellationTokens with
  | some _ =>
    let toks := alModify jobId (fun t => { t with fired := true }) r.cancellationTokens
    ({ r with activeJobs := jobs, cancellationTokens := toks }, true)
  | none => ({ r with activeJobs := jobs }, false)

/-- add_cancellation_token (lib.rs 67-69). -/
def addCancellationToken (r : RegistryM) (jobId : String) (t : TokenM) : RegistryM :=
  { r with cancellationTokens := alInsert jobId t r.cancellationTokens }

/-- add_job_handle (lib.rs 71-73). -/
def addJobHandle (r : RegistryM) (jobId : String) (h : HandleM) : RegistryM :=
  { r with jobHandles := alInsert jobId h r.jobHandles }

/-- The bookkeeping invariant under study: at most one entry per job id in
each of the three tables. -/
def RegInv (r : RegistryM) : Prop :=
  (alKeys r.activeJobs).Nodup ∧ (alKeys r.jobHandles).Nodup
    ∧ (alKeys r.cancellationTokens).Nodup

/-- Registry states reachable from the fresh manager through its public
operations. -/
inductive Reachable : RegistryM → Prop
  | init : Reachable newRegistry
  | addJobStep (r : RegistryM) (j : JobM) : Reachable r → Reachable (addJob r j)
  | addTokenStep (r : RegistryM) (jobId : String) (t : TokenM) :
      Reachable r → Reachable (addCancellationToken r jobId t)
  | addHandleStep (r : RegistryM) (jobId : String) (h : HandleM) :
      Reachable r → Reachable (addJobHandle r jobId h)
  | updateStep (r : RegistryM) (jobId : String) (p : ProgressEvent) :
      Reachable r → Reachable (updateJobProgress r jobId p)
  | cancelStep (r : RegistryM) (jobId : String) :
      Reachable r → Reachable (cancelJob r jobId).1
  | removeStep (r : RegistryM) (jobId : String) :
      Reachable r → Reachable (removeJob r jobId)

/- ## Concrete instances used by witness statements. -/

def sampleJob : JobM :=
  { id := "job1", progress := 0, stage := .initializing, isCancelled := false }

def sampleRegistry : RegistryM :=
  addCancellationToken (addJob newRegistry sampleJob) "job1" { fired := false }

def sampleProc : String → Except AppErr TranscriptionResultM :=
  fun f =>
    if f = "a.m4a" then .ok { transcribedText := "ta", outputPath := "a_transcription.txt" }
    else if f = "b.m4a" then .error (.cliError "CLI execution failed with exit code: Some(1)")
    else .ok { transcribedText := "tc", outputPath := "c_transcription.txt" }

def sampleOld : FileEntry :=
  { name := "audio_transcription_202401010000.txt", mtime := 100, content := some "old text" }

def sampleNew : FileEntry :=
  { name := "audio_transcription_202401020000.txt", mtime := 200, content := some "new text" }

def sampleFS : WorkDirFS :=
  { workDir := some [sampleOld, sampleNew], outputDir := some [], homeDir := none }

def sampleUnreadable : FileEntry :=
  { name := "audio_transcription_202401030000.txt", mtime := 300, content := none }

def sampleFSUnreadable : WorkDirFS :=
  { workDir := some [sampleUnreadable], outputDir := none, homeDir := none }

/- ## Helper lemmas. -/

theorem insertDesc_ne_nil (e : FileEntry) (l : List FileEntry) : insertDesc e l ≠ [] := by
  cases l with
  | nil => simp [insertDesc]
  | cons f fs => simp only [insertDesc]; split <;> simp

theorem sortDesc_head_max :
    ∀ (l : List FileEntry) (e : FileEntry), (sortDesc l).head? = some e →
      e ∈ l ∧ ∀ x ∈ l, x.mtime ≤ e.mtime := by
  intro l
  induction l with
  | nil => intro e h; simp [sortDesc] at h
  | cons a as ih =>
    intro e h
    simp only [sortDesc] at h
    rcases hs : sortDesc as with _ | ⟨f, t⟩
    · rw [hs] at h
      simp only [insertDesc, List.head?_cons, Option.some.injEq] at h
      subst h
      have hasnil : as = [] := by
        cases as with
        | nil => rfl
        | cons b bs =>
          exact absurd hs (by simp only [sortDesc]; exact insertDesc_ne_nil b (sortDesc bs))
      subst hasnil
      refine ⟨List.mem_singleton.mpr rfl, ?_⟩
      intro x hx
      rcases List.mem_singleton.mp hx with rfl
      exact le_refl _
    · rw [hs] at h
      have ihf := ih f (by rw [hs]; rfl)
      simp only [insertDesc] at h
      by_cases hc : f.mtime ≤ a.mtime
      · rw [if_pos hc] at h
        simp only [List.head?_cons, Option.some.injEq] at h
        subst h
        refine ⟨List.mem_cons_self a as, ?_⟩
        intro x hx
        rcases List.mem_cons.mp hx with rfl | hx'
        · exact le_refl _
        · exact le_trans (ihf.2 x hx') hc
      · rw [if_neg hc] at h
        simp only [List.head?_cons, Option.some.injEq] at h
        subst h
        refine ⟨List.mem_cons_of_mem a ihf.1, ?_⟩
        intro x hx
        rcases List.mem_cons.mp hx with rfl | hx'
        · exact le_of_lt (lt_of_not_le hc)
        · exact ihf.2 x hx'

theorem ifGt_eq_min (x : ℚ) : (if x > 90 then (90 : ℚ) else x) = min 90 x := by
  rcases le_or_lt x 90 with h | h
  · rw [if_neg (not_lt.mpr h), min_eq_right h]
  · rw [if_pos h, min_eq_left h.le]

theorem processBatchLoop_eq (procFile : String → Except AppErr TranscriptionResultM) :
    ∀ (fs : List String) (acc : List TranscriptionResultM),
      processBatchLoop procFile fs acc =
        acc ++ fs.filterMap (fun f => (procFile f).toOption) := by
  intro fs
  induction fs with
  | nil => intro acc; simp [processBatchLoop]
  | cons f fs ih =>
    intro acc
    simp only [processBatchLoop]
    cases h : procFile f with
    | error e =>
      have hto : (procFile f).toOption = none := by rw [h]; rfl
      simp [ih, List.filterMap_cons, hto]
    | ok r =>
      have hto : (procFile f).toOption = some r := by rw [h]; rfl
      simp [ih, List.filterMap_cons, hto]

theorem mem_alKeys_alInsert {α : Type} (k : String) (v : α) :
    ∀ (m : List (String × α)) (x : String),
      x ∈ alKeys (alInsert k v m) ↔ x = k ∨ x ∈ alKeys m := by
  intro m
  induction m with
  | nil => intro x; simp [alInsert, alKeys]
  | cons p rest ih =>
    intro x
    by_cases hpk : p.1 = k
    · simp only [alInsert, if_pos hpk, alKeys, List.map_cons, List.mem_cons]
      rw [← hpk]
      tauto
    · simp only [alInsert, if_neg hpk, alKeys, List.map_cons, List.mem_cons]
      have := ih x
      simp only [alKeys] at this
      rw [this]
      tauto

theorem nodup_alInsert {α : Type} (k : String) (v : α) :
    ∀ m : List (String × α), (alKeys m).Nodup → (alKeys (alInsert k v m)).Nodup := by
  intro m
  induction m with
  | nil => intro _; simp [alInsert, alKeys]
  | cons p rest ih =>
    intro h
    simp only [alKeys, List.map_cons, List.nodup_cons] at h
    by_cases hpk : p.1 = k
    · simp only [alInsert, if_pos hpk, alKeys, List.map_cons, List.nodup_cons]
      refine ⟨?_, h.2⟩
      rw [← hpk]
      simpa [alKeys] using h.1
    · simp only [alInsert, if_neg hpk, alKeys, List.map_cons, List.nodup_cons]
      refine ⟨?_, ih h.2⟩
      intro hmem
      rcases (mem_alKeys_alInsert k v rest p.1).mp (by simpa [alKeys] using hmem) with h1 | h2
      · exact hpk h1
      · exact h.1 (by simpa [alKeys] using h2)

theorem alKeys_alModify {α : Type} (k : String) (f : α → α) :
    ∀ m : List (String × α), alKeys (alModify k f m) = alKeys m := by
  intro m
  induction m with
  | nil => rfl
  | cons p rest ih =>
    by_cases hpk : p.1 = k
    · simp only [alModify, if_pos hpk, alKeys, List.map_cons]
    · simp only [alModify, if_neg hpk, alKeys, List.map_cons]
      rw [show List.map Prod.fst (alModify k f rest) = alKeys (alModify k f rest) from rfl, ih]
      rfl

theorem mem_alKeys_alRemove {α : Type} (k : String) :
    ∀ (m : List (String × α)) (x : String), x ∈ alKeys (alRemove k m) → x ∈ alKeys m := by
  intro m
  induction m with
  | nil => intro x h; exact h
  | cons p rest ih =>
    intro x h
    by_cases hpk : p.1 = k
    · simp only [alRemove, if_pos hpk] at h
      simp only [alKeys, List.map_cons, List.mem_cons]
      exact Or.inr h
    · simp only [alRemove, if_neg hpk, alKeys, List.map_cons, List.mem_cons] at h ⊢
      rcases h with h1 | h2
      · exact Or.inl h1
      · exact Or.inr (ih x h2)

theorem nodup_alRemove {α : Type} (k : String) :
    ∀ m : List (String × α), (alKeys m).Nodup → (alKeys (alRemove k m)).Nodup := by
  intro m
  induction m with
  | nil => intro h; exact h
  | cons p rest ih =>
    intro h
    simp only [alKeys, List.map_cons, List.nodup_cons] at h
    by_cases hpk : p.1 = k
    · simp only [alRemove, if_pos hpk]
      exact h.2
    · simp only [alRemove, if_neg hpk, alKeys, List.map_cons, List.nodup_cons]
      exact ⟨fun hm => h.1 (by simpa [alKeys] using mem_alKeys_alRemove k rest p.1 (by simpa [alKeys] using hm)), ih h.2⟩

theorem alGet_alInsert_self {α : Type} (k : String) (v : α) :
    ∀ m : List (String × α), alGet k (alInsert k v m) = some v := by
  intro m
  induction m with
  | nil => simp [alInsert, alGet]
  | cons p rest ih =>
    by_cases hpk : p.1 = k
    · simp [alInsert, if_pos hpk, alGet]
    · simp only [alInsert, if_neg hpk, alGet]
      exact ih

theorem alGet_alModify_self {α : Type} (k : String) (f : α → α) :
    ∀ m : List (String × α), alGet k (alModify k f m) = (alGet k m).map f := by
  intro m
  induction m with
  | nil => simp [alModify, alGet]
  | cons p rest ih =>
    by_cases hpk : p.1 = k
    · simp [alModify, if_pos hpk, alGet, hpk]
    · simp only [alModify, if_neg hpk, alGet]
      exact ih

theorem regInv_addJob (r : RegistryM) (j : JobM) : RegInv r → RegInv (addJob r j) := by
  intro h
  exact ⟨nodup_alInsert j.id j r.activeJobs h.1, h.2.1, h.2.2⟩

theorem regInv_addToken (r : RegistryM) (jobId : String) (t : TokenM) :
    RegInv r → RegInv (addCancellationToken r jobId t) := by
  intro h
  exact ⟨h.1, h.2.1, nodup_alInsert jobId t r.cancellationTokens h.2.2⟩

theorem regInv_addHandle (r : RegistryM) (jobId : String) (h : HandleM) :
    RegInv r → RegInv (addJobHandle r jobId h) := by
  intro hh
  exact ⟨hh.1, nodup_alInsert jobId h r.jobHandles hh.2.1, hh.2.2⟩

theorem regInv_update (r : RegistryM) (jobId : String) (p : ProgressEvent) :
    RegInv r → RegInv (updateJobProgress r jobId p) := by
  intro h
  refine ⟨?_, h.2.1, h.2.2⟩
  simp only [updateJobProgress]
  rw [alKeys_alModify]
  exact h.1

theorem regInv_cancel (r : RegistryM) (jobId : String) :
    RegInv r → RegInv (cancelJob r jobId).1 := by
  intro h
  simp only [cancelJob]
  cases hg : alGet jobId r.cancellationTokens with
  | none =>
    simp only [hg]
    refine ⟨?_, h.2.1, h.2.2⟩
    rw [show alKeys (alModify jobId (fun j => { j with isCancelled := true }) r.activeJobs) = alKeys r.activeJobs from alKeys_alModify _ _ _]
    exact h.1
  | some t =>
    simp only [hg]
    refine ⟨?_, h.2.1, ?_⟩
    · rw [show alKeys (alModify jobId (fun j => { j with isCancelled := true }) r.activeJobs) = alKeys r.activeJobs from alKeys_alModify _ _ _]
      exact h.1
    · rw [show alKeys (alModify jobId (fun t => { t with fired := true }) r.cancellationTokens) = alKeys r.cancellationTokens from alKeys_alModify _ _ _]
      exact h.2.2

theorem regInv_remove (r : RegistryM) (jobId : String) :
    RegInv r → RegInv (removeJob r jobId) := by
  intro h
  exact ⟨nodup_alRemove jobId r.activeJobs h.1, nodup_alRemove jobId r.jobHandles h.2.1,
    nodup_alRemove jobId r.cancellationTokens h.2.2⟩

theorem reachable_regInv : ∀ r : RegistryM, Reachable r → RegInv r := by
  intro r h
  induction h with
  | init => exact ⟨List.nodup_nil, List.nodup_nil, List.nodup_nil⟩
  | addJobStep r j _ ih => exact regInv_addJob r j ih
  | addTokenStep r jobId t _ ih => exact regInv_addToken r jobId t ih
  | addHandleStep r jobId h _ ih => exact regInv_addHandle r jobId h ih
  | updateStep r jobId p _ ih => exact regInv_update r jobId p ih
  | cancelStep r jobId _ ih => exact regInv_cancel r jobId ih
  | removeStep r jobId _ ih => exact regInv_remove r jobId ih

/- ## Claim theorems. -/

/-- C1: the claim states that whenever the cancellation token fires before
the worker exits, the orchestrator returns a ProcessingError signaling
cancellation and the child process is killed before control returns.  The
code diverges: the select arm that returns the ProcessingError (the token
arm) never kills the child and merely drops the pending wait future, while
the only path that does kill the child (the pre-wait is_cancelled check)
surfaces a CliError instead, so the claimed conjunction holds on no
cancellation path.  This theorem exhibits both facts for every mode, stem,
file path and filesystem state. -/
theorem cancelled_run_returns_processing_error_without_kill :
    ∀ (mode : CliMode) (base filePath : String) (fs : WorkDirFS),
      (processMonitor mode base filePath fs .cancelledArm).result =
          .error (.processingError "Processing was cancelled") ∧
      (processMonitor mode base filePath fs .cancelledArm).childKilled = false ∧
      (processMonitor mode base filePath fs .preCancelledKill).childKilled = true ∧
      (processMonitor mode base filePath fs .preCancelledKill).result =
          .error (.cliError (waitFailCancelledMsg mode)) := by
  intro mode base filePath fs
  exact ⟨rfl, rfl, rfl, rfl⟩

/-- C2: the claim states that when the configured timeout (default one
hour) elapses the orchestrator attempts to kill the child before surfacing
a CliError.  The code diverges: the timeout branch surfaces the CliError
with no kill attempt at all (the abandoned wait future does not kill the
child).  This theorem records the default one-hour timeout and shows that
the timeout path yields the CliError with childKilled false. -/
theorem timeout_returns_cli_error_without_kill :
    cliManagerDefault.timeoutSecs = 3600 ∧
    ∀ (mode : CliMode) (base filePath : String) (fs : WorkDirFS),
      (processMonitor mode base filePath fs .timedOut).result =
          .error (.cliError (timeoutMsg mode)) ∧
      (processMonitor mode base filePath fs .timedOut).childKilled = false := by
  exact ⟨rfl, fun _ _ _ _ => ⟨rfl, rfl⟩⟩

/-- C7: when the worker process exits, the orchestrator errors exactly on a
non-zero status: a non-zero (or signal) exit yields a CliError whose
message carries the exit code, while a zero exit first emits the final
Saving progress event at 100 percent and then returns whatever the Output
Resolver produces. -/
theorem exit_status_dispatch :
    ∀ (mode : CliMode) (base filePath : String) (fs : WorkDirFS) (code : Option Int),
      (code ≠ some 0 →
        processMonitor mode base filePath fs (.exited code) =
          { events := [], result := .error (.cliError (exitFailMsg code)),
            childKilled := false }) ∧
      (processMonitor mode base filePath fs (.exited (some 0)) =
        { events := [savingEvent filePath], result := parseCliCompletion base fs,
          childKilled := false }) ∧
      (savingEvent filePath).stage = .saving ∧ (savingEvent filePath).progress = 100 := by
  intro mode base filePath fs code
  refine ⟨?_, ?_, rfl, rfl⟩
  · intro h
    simp [processMonitor, h]
  · simp [processMonitor]

/-- Witness for C7 at a concrete exit code 1, mode sidecar and a concrete
directory state. -/
theorem exit_status_dispatch_witness :
    processMonitor .sidecar "audio" "f.m4a" sampleFS (.exited (some 1)) =
      { events := [], result := .error (.cliError (exitFailMsg (some 1))),
        childKilled := false } :=
  (exit_status_dispatch .sidecar "audio" "f.m4a" sampleFS (some 1)).1 (by decide)

/-- C6: process_batch returns Ok carrying exactly the successful per-file
results: each per-file failure is skipped (after its diagnostic) and the
remaining files are still processed, and the batch call never errors for a
per-file failure; in particular three inputs whose second fails yield
exactly the two other results. -/
theorem process_batch_collects_successes :
    ∀ (procFile : String → Except AppErr TranscriptionResultM) (filePaths : List String),
      processBatch procFile filePaths =
        .ok (filePaths.filterMap (fun f => (procFile f).toOption)) ∧
      (∀ (f1 f2 f3 : String) (r1 r3 : TranscriptionResultM) (err : AppErr),
        procFile f1 = .ok r1 → procFile f2 = .error err → procFile f3 = .ok r3 →
        processBatch procFile [f1, f2, f3] = .ok [r1, r3]) := by
  intro procFile filePaths
  constructor
  · simp [processBatch, processBatchLoop_eq]
  · intro f1 f2 f3 r1 r3 err h1 h2 h3
    have t1 : (procFile f1).toOption = some r1 := by rw [h1]; rfl
    have t2 : (procFile f2).toOption = none := by rw [h2]; rfl
    have t3 : (procFile f3).toOption = some r3 := by rw [h3]; rfl
    simp [processBatch, processBatchLoop_eq, List.filterMap_cons, t1, t2, t3]

/-- Witness for C6: a concrete three-file batch whose second file fails
yields exactly the first and third results. -/
theorem process_batch_collects_successes_witness :
    processBatch sampleProc ["a.m4a", "b.m4a", "c.m4a"] =
      .ok [{ transcribedText := "ta", outputPath := "a_transcription.txt" },
           { transcribedText := "tc", outputPath := "c_transcription.txt" }] :=
  (process_batch_collects_successes sampleProc ["a.m4a", "b.m4a", "c.m4a"]).2
    "a.m4a" "b.m4a" "c.m4a"
    { transcribedText := "ta", outputPath := "a_transcription.txt" }
    { transcribedText := "tc", outputPath := "c_transcription.txt" }
    (.cliError "CLI execution failed with exit code: Some(1)")
    (by decide) (by decide) (by decide)

/-- C8: in every reachable registry state each of the three tables holds at
most one entry per job id, this uniqueness is preserved by every registry
operation, and registering a job, token or handle under an existing id
replaces the previous entry (the lookup afterwards yields the new value). -/
theorem registry_unique_per_id :
    (∀ r : RegistryM, Reachable r → RegInv r) ∧
    (∀ (r : RegistryM) (j : JobM), RegInv r → RegInv (addJob r j)) ∧
    (∀ (r : RegistryM) (jobId : String) (t : TokenM),
      RegInv r → RegInv (addCancellationToken r jobId t)) ∧
    (∀ (r : RegistryM) (jobId : String) (h : HandleM),
      RegInv r → RegInv (addJobHandle r jobId h)) ∧
    (∀ (r : RegistryM) (jobId : String) (p : ProgressEvent),
      RegInv r → RegInv (updateJobProgress r jobId p)) ∧
    (∀ (r : RegistryM) (jobId : String), RegInv r → RegInv (cancelJob r jobId).1) ∧
    (∀ (r : RegistryM) (jobId : String), RegInv r → RegInv (removeJob r jobId)) ∧
    (∀ (r : RegistryM) (j : JobM), alGet j.id (addJob r j).activeJobs = some j) ∧
    (∀ (r : RegistryM) (jobId : String) (t : TokenM),
      alGet jobId (addCancellationToken r jobId t).cancellationTokens = some t) ∧
    (∀ (r : RegistryM) (jobId : String) (h : HandleM),
      alGet jobId (addJobHandle r jobId h).jobHandles = some h) := by
  refine ⟨reachable_regInv, regInv_addJob, regInv_addToken, regInv_addHandle,
    regInv_update, regInv_cancel, regInv_remove, ?_, ?_, ?_⟩
  · intro r j
    exact alGet_alInsert_self j.id j r.activeJobs
  · intro r jobId t
    exact alGet_alInsert_self jobId t r.cancellationTokens
  · intro r jobId h
    exact alGet_alInsert_self jobId h r.jobHandles

/-- Witness for C8: the sample registry built through two operations is
reachable and satisfies the invariant, and re-registering a token under the
same id replaces the stored token. -/
theorem registry_unique_per_id_witness :
    RegInv sampleRegistry ∧
    alGet "job1"
        (addCancellationToken sampleRegistry "job1" { fired := true }).cancellationTokens =
      some { fired := true } :=
  ⟨registry_unique_per_id.1 sampleRegistry
      (Reachable.addTokenStep _ "job1" { fired := false }
        (Reachable.addJobStep _ sampleJob Reachable.init)),
    registry_unique_per_id.2.2.2.2.2.2.2.2.1 sampleRegistry "job1" { fired := true }⟩

/-- C9: cancel_job returns true exactly when a cancellation token is
registered for the id at the time of the call, and in that case the stored
token is fired. -/
theorem cancel_job_token_iff :
    ∀ (r : RegistryM) (jobId : String),
      ((cancelJob r jobId).2 = true ↔ (alGet jobId r.cancellationTokens).isSome = true) ∧
      (∀ t : TokenM, alGet jobId r.cancellationTokens = some t →
        alGet jobId (cancelJob r jobId).1.cancellationTokens = some { t with fired := true }) := by
  intro r jobId
  constructor
  · simp only [cancelJob]
    cases hg : alGet jobId r.cancellationTokens with
    | none => simp [hg]
    | some t => simp [hg]
  · intro t ht
    simp only [cancelJob, ht]
    rw [alGet_alModify_self jobId _ r.cancellationTokens, ht]
    rfl

/-- Witness for C9: cancelling the sample registry's job returns true and
fires its stored token. -/
theorem cancel_job_token_iff_witness :
    (cancelJob sampleRegistry "job1").2 = true ∧
    alGet "job1" (cancelJob sampleRegistry "job1").1.cancellationTokens =
      some { fired := true } :=
  ⟨((cancel_job_token_iff sampleRegistry "job1").1).mpr (by decide),
    (cancel_job_token_iff sampleRegistry "job1").2 { fired := false } (by decide)⟩

/-- C3 counterexample: the claim says the emitted progress equals the
captured percentage clamped to the interval from 0 to 100, but on the
well-formed recognizer-2 line carrying 150 percent the parser emits
progress 150, not the clamped value 100: no clamping is performed. -/
theorem tqdm_percent_not_clamped_cex :
    (parseAndEmitProgress "150%|#| 1/2 [00:00]" "f.m4a").map (fun e => e.progress) =
      some 150 ∧
    ¬ ((parseAndEmitProgress "150%|#| 1/2 [00:00]" "f.m4a").map (fun e => e.progress) =
        some (max 0 (min 100 (150 : ℚ)))) := by
  constructor
  · decide
  · decide

/-- C3 amended: for every line whose first matching recognizer in the fixed
priority order is 2 (progress bar), 3 (bracketed processing marker) or 4
(bare percentage), the parser emits exactly one event with stage
Transcribing whose progress equals the literal captured percentage exactly,
with no clamping applied (captured percentages are never negative, so
values up to 100 coincide with their clamp while larger ones pass through
unchanged). -/
theorem percent_recognizers_emit_literal_percent :
    ∀ (line filePath : String), findSeg line.toList = none →
      ((∀ p c t : Nat, findTqdm line.toList = some (p, c, t) →
          parseAndEmitProgress line filePath =
            some { stage := .transcribing, progress := (p : ℚ),
                   currentFile := some filePath, jobId := none, fileIndex := none,
                   totalFiles := none, canCancel := true }) ∧
       (findTqdm line.toList = none →
          ∀ (c t : Nat) (q : ℚ), findCli line.toList = some (c, t, q) →
            parseAndEmitProgress line filePath =
              some { stage := .transcribing, progress := q,
                     currentFile := some filePath, jobId := none, fileIndex := none,
                     totalFiles := none, canCancel := true }) ∧
       (findTqdm line.toList = none → findCli line.toList = none →
          ∀ p : Nat, findPct line.toList = some p →
            parseAndEmitProgress line filePath =
              some { stage := .transcribing, progress := (p : ℚ),
                     currentFile := some filePath, jobId := none, fileIndex := none,
                     totalFiles := none, canCancel := true })) := by
  intro line filePath hseg
  refine ⟨?_, ?_, ?_⟩
  · intro p c t h
    simp only [parseAndEmitProgress, hseg, h]
  · intro htq c t q h
    simp only [parseAndEmitProgress, hseg, htq, h]
  · intro htq hcli p h
    simp only [parseAndEmitProgress, hseg, htq, hcli, h]

/-- Witness for the amended C3 at a concrete recognizer-4 line. -/
theorem percent_recognizers_emit_literal_percent_witness :
    parseAndEmitProgress "Processing: 42%" "f.m4a" =
      some { stage := .transcribing, progress := 42, currentFile := some "f.m4a",
             jobId := none, fileIndex := none, totalFiles := none, canCancel := true } :=
  (percent_recognizers_emit_literal_percent "Processing: 42%" "f.m4a" (by decide)).2.2
    (by decide) (by decide) 42 (by decide)

/-- C4: every line matched by the timestamp-range recognizer yields exactly
one Transcribing event whose progress is the minimum of 90 and 100 times
the end time in seconds (the captured end minutes and seconds) divided by
300, hence never above 90. -/
theorem segment_progress_capped :
    ∀ (line filePath : String) (sm ss sms em es ems : Nat),
      findSeg line.toList = some (sm, ss, sms, em, es, ems) →
      parseAndEmitProgress line filePath =
        some { stage := .transcribing,
               progress := min 90 (100 * ((60 * em + es : ℕ) : ℚ) / 300),
               currentFile := some filePath, jobId := none, fileIndex := none,
               totalFiles := none, canCancel := true } ∧
      min 90 (100 * ((60 * em + es : ℕ) : ℚ) / 300) ≤ 90 := by
  intro line filePath sm ss sms em es ems h
  have hpq : (if ((em : ℚ) * 60 + (es : ℚ)) / 300 * 100 > 90 then (90 : ℚ)
        else ((em : ℚ) * 60 + (es : ℚ)) / 300 * 100) =
      min 90 (100 * ((60 * em + es : ℕ) : ℚ) / 300) := by
    rw [ifGt_eq_min]
    congr 1
    push_cast
    ring
  constructor
  · simp only [parseAndEmitProgress, h, hpq]
  · exact min_le_left _ _

/-- Witness for C4 at a concrete segment line ending at 30 seconds. -/
theorem segment_progress_capped_witness :
    parseAndEmitProgress "[00:01.000 --> 00:30.000]" "f.m4a" =
      some { stage := .transcribing,
             progress := min 90 (100 * ((60 * 0 + 30 : ℕ) : ℚ) / 300),
             currentFile := some "f.m4a", jobId := none, fileIndex := none,
             totalFiles := none, canCancel := true } ∧
    min 90 (100 * ((60 * 0 + 30 : ℕ) : ℚ) / 300) ≤ 90 :=
  segment_progress_capped "[00:01.000 --> 00:30.000]" "f.m4a" 0 1 0 0 30 0 (by decide)

/-- C5: with the exact expected artifact absent, the resolver scans the
candidate directories in their fixed order; the first directory yielding
any match determines the result independently of the later directories, the
chosen entry is a matching entry of maximal modification time (so of two
matching files with different times the newer wins), its content and path
become the Ok result, and when no directory yields a match the call fails
with the artifact-not-found CliError. -/
theorem output_resolver_search_order :
    (∀ (base : String) (entries : List FileEntry)
        (rest : List (Option (List FileEntry))) (e : FileEntry),
        selectLatest (matchingFiles base entries) = some e →
        findInDirs base (some entries :: rest) = some e) ∧
    (∀ (base : String) (entries : List FileEntry)
        (rest : List (Option (List FileEntry))),
        matchingFiles base entries = [] →
        findInDirs base (some entries :: rest) = findInDirs base rest) ∧
    (∀ (base : String) (rest : List (Option (List FileEntry))),
        findInDirs base (none :: rest) = findInDirs base rest) ∧
    (∀ (l : List FileEntry) (e : FileEntry), selectLatest l = some e →
        e ∈ l ∧ ∀ x ∈ l, x.mtime ≤ e.mtime) ∧
    (∀ (base : String) (fs : WorkDirFS) (e : FileEntry),
        exactOutputFile base fs = none →
        findInDirs base (searchDirs fs) = some e →
        parseCliCompletion base fs =
          .ok { transcribedText := readTextOf e, outputPath := e.name }) ∧
    (∀ (base : String) (fs : WorkDirFS),
        exactOutputFile base fs = none →
        findInDirs base (searchDirs fs) = none →
        parseCliCompletion base fs =
          .error (.cliError "Transcription output file not found")) ∧
    (∀ (base : String) (a b : FileEntry) (rest : List (Option (List FileEntry))),
        matchesPattern base a.name = true → matchesPattern base b.name = true →
        a.mtime < b.mtime → findInDirs base (some [a, b] :: rest) = some b) := by
  refine ⟨?_, ?_, ?_, ?_, ?_, ?_, ?_⟩
  · intro base entries rest e h
    simp [findInDirs, h]
  · intro base entries rest h
    simp [findInDirs, h, selectLatest, sortDesc]
  · intro base rest
    simp [findInDirs]
  · intro l e h
    exact sortDesc_head_max l e h
  · intro base fs e hex hfind
    simp [parseCliCompletion, hex, hfind]
  · intro base fs hex hfind
    simp [parseCliCompletion, hex, hfind]
  · intro base a b rest ha hb hab
    have hm : matchingFiles base [a, b] = [a, b] := by
      simp [matchingFiles, ha, hb]
    have hs : selectLatest [a, b] = some b := by
      simp [selectLatest, sortDesc, insertDesc, if_neg (not_le.mpr hab)]
    simp [findInDirs, hm, hs]

/-- Witness for C5: in a directory holding an older and a newer matching
artifact for stem audio, the resolver returns the newer file's content and
path, and it never proceeds past that first directory. -/
theorem output_resolver_search_order_witness :
    parseCliCompletion "audio" sampleFS =
      .ok { transcribedText := readTextOf sampleNew, outputPath := sampleNew.name } ∧
    findInDirs "audio" (some [sampleOld, sampleNew] :: [some [], none]) = some sampleNew :=
  ⟨(output_resolver_search_order.2.2.2.2.1 "audio" sampleFS sampleNew
      (by decide) (by decide)),
   (output_resolver_search_order.2.2.2.2.2.2 "audio" sampleOld sampleNew [some [], none]
      (by decide) (by decide) (by decide))⟩

/-- C10: when the worker exits zero and the resolver locates an artifact
whose read fails, the call still succeeds and the returned result carries
the fixed placeholder text instead of an error, both for the exact expected
file and for a file located by the directory scan. -/
theorem unreadable_artifact_placeholder :
    ∀ (mode : CliMode) (base filePath : String) (fs : WorkDirFS) (e : FileEntry),
      (exactOutputFile base fs = some e → e.content = none →
        (processMonitor mode base filePath fs (.exited (some 0))).result =
          .ok { transcribedText := placeholderText, outputPath := expectedName base }) ∧
      (exactOutputFile base fs = none →
        findInDirs base (searchDirs fs) = some e → e.content = none →
        (processMonitor mode base filePath fs (.exited (some 0))).result =
          .ok { transcribedText := placeholderText, outputPath := e.name }) := by
  intro mode base filePath fs e
  constructor
  · intro hex hc
    simp [processMonitor, parseCliCompletion, hex, readTextOf, hc]
  · intro hex hfind hc
    simp [processMonitor, parseCliCompletion, hex, hfind, readTextOf, hc]

/-- Witness for C10: a zero exit over a directory whose only matching
artifact is unreadable still yields an Ok result with the placeholder
text. -/
theorem unreadable_artifact_placeholder_witness :
    (processMonitor .sidecar "audio" "audio.m4a" sampleFSUnreadable (.exited (some 0))).result =
      .ok { transcribedText := placeholderText, outputPath := sampleUnreadable.name } :=
  (unreadable_artifact_placeholder .sidecar "audio" "audio.m4a" sampleFSUnreadable
      sampleUnreadable).2 (by decide) (by decide) (by decide)
